import Mathlib

/-
Verification of the per-batch training step of
`script/tri_loss/train.py` (AlignedReID re-production, mutual-learning
training script).

The training step is embedded shallowly:

* `Cfg` holds the configuration fields that `main()`'s training loop reads.
  The ensemble size `cfg.num_models` is the Lean parameter `M` throughout
  (the script builds `models = [Model(...) for _ in range(cfg.num_models)]`,
  so the model list length and `cfg.num_models` coincide).
* `Env M N C` packages the values returned by the collaborators that the
  script imports from outside this file's source (`global_loss`,
  `local_loss`, `nn.CrossEntropyLoss`, `F.softmax`, `F.log_softmax`,
  `F.kl_div`): the training step only orchestrates calls to them, so they
  are opaque per-model data / opaque functions here.  `N` is the batch size
  (`len(ims)`), `C` the number of classes.
* Rational numbers stand for the real-valued tensor entries; `torch.sum`,
  `torch.pow`, elementwise subtraction and comparison are translated to
  their pointwise meaning.
* The Python scalar literal `0` that the script assigns to `l_dist_mat`
  when no full local distance matrix exists is `Option.none`; an `N × N`
  tensor is `Option.some` of a matrix.  Applying the device-transfer
  callable `TVT` to that plain int raises (ints have no tensor-transfer
  method), which the embedding renders as `Except.error`.
-/

namespace AlignedReid

/-- Configuration fields of `train_cfg.Config` that the training step of
`train.py` reads.  `num_models` is carried as the type-level parameter `M`. -/
structure Cfg where
  g_loss_weight : ℚ
  l_loss_weight : ℚ
  id_loss_weight : ℚ
  pm_loss_weight : ℚ
  gdm_loss_weight : ℚ
  ldm_loss_weight : ℚ
  local_dist_own_hard_sample : Bool
  global_margin : ℚ
  local_margin : ℚ

/-- Result of `global_loss(g_tri_loss, global_feat, labels_t, ...)`
(train.py line 255): loss, hard-positive / hard-negative indices,
anchor-positive and anchor-negative distance vectors, and the full
`N × N` global distance matrix. -/
structure GlobalOut (N : ℕ) where
  loss : ℚ
  p_inds : Fin N → Fin N
  n_inds : Fin N → Fin N
  dist_ap : Fin N → ℚ
  dist_an : Fin N → ℚ
  dist_mat : Fin N → Fin N → ℚ

/-- Result of `local_loss(l_tri_loss, local_feat, None, None, labels_t, ...)`
(train.py line 263, the "let local distance find its own hard samples"
branch): it returns a full local distance matrix. -/
structure LocalOutFull (N : ℕ) where
  loss : ℚ
  dist_ap : Fin N → ℚ
  dist_an : Fin N → ℚ
  dist_mat : Fin N → Fin N → ℚ

/-- Result of `local_loss(l_tri_loss, local_feat, p_inds, n_inds, labels_t, ...)`
(train.py line 267, the shared-hard-samples branch): no distance matrix. -/
structure LocalOutShared (N : ℕ) where
  loss : ℚ
  dist_ap : Fin N → ℚ
  dist_an : Fin N → ℚ

/-- Modelled from the spec: per-batch outputs of the external collaborators
of the training step (the embedding network, `global_loss`, `local_loss`,
the cross-entropy criterion, softmax / log-softmax and `F.kl_div` live in
`aligned_reid.tri_loss.model.*` / torch, outside this file's source).  The
step only reads their results, so they are opaque values here:
`globalLoss i` is what `global_loss` returns for model `i` on this batch,
`localLossOwn i` / `localLossShared i` what the two `local_loss` call
shapes return, `idCriterion i` the cross-entropy value on model `i`'s
logits, `probs i` / `logProbs i` the softmax / log-softmax of model `i`'s
logits, and `klDiv lp q` the value of `F.kl_div(lp, q, False)`. -/
structure Env (M N C : ℕ) where
  globalLoss : Fin M → GlobalOut N
  localLossOwn : Fin M → LocalOutFull N
  localLossShared : Fin M → LocalOutShared N
  idCriterion : Fin M → ℚ
  probs : Fin M → Fin N → Fin C → ℚ
  logProbs : Fin M → Fin N → Fin C → ℚ
  klDiv : (Fin N → Fin C → ℚ) → (Fin N → Fin C → ℚ) → ℚ

/-- Local-loss statistics (`l_dist_ap`, `l_dist_an`) produced by either
`local_loss` branch; absent (the Python locals stay unassigned) when
`cfg.l_loss_weight == 0`. -/
structure LocalStats (N : ℕ) where
  dist_ap : Fin N → ℚ
  dist_an : Fin N → ℚ

/-- Values a single iteration of the first per-model loop (train.py lines
251-284) produces for one model.  `l_dist_mat = none` models the Python
scalar `0` assigned in place of a matrix; the `*Called` flags record which
external loss computations the iteration actually invoked. -/
structure PerModel (N : ℕ) where
  g_loss : ℚ
  g_dist_ap : Fin N → ℚ
  g_dist_an : Fin N → ℚ
  g_dist_mat : Fin N → Fin N → ℚ
  l_loss : ℚ
  l_dist_mat : Option (Fin N → Fin N → ℚ)
  l_stats : Option (LocalStats N)
  id_loss : ℚ
  globalLossCalled : Bool
  localLossCalled : Bool
  idCriterionCalled : Bool

/-- One iteration of the first per-model loop (train.py lines 251-284):
`global_loss` is called unconditionally (line 255); the local branch
follows lines 259-270 (`if cfg.l_loss_weight == 0` assigns the scalars
`0, 0`; `elif cfg.local_dist_own_hard_sample` calls `local_loss` with
`None` indices and keeps the matrix; `else` calls `local_loss` with the
global hard indices and assigns `l_dist_mat = 0`); the identity loss
follows lines 272-274 (`if cfg.id_loss_weight > 0`). -/
def modelPhase {M N C : ℕ} (cfg : Cfg) (env : Env M N C) (i : Fin M) :
    PerModel N :=
  let g := env.globalLoss i
  let lpart : ℚ × Option (Fin N → Fin N → ℚ) × Option (LocalStats N) × Bool :=
    if cfg.l_loss_weight = 0 then
      (0, none, none, false)
    else if cfg.local_dist_own_hard_sample then
      let o := env.localLossOwn i
      (o.loss, some o.dist_mat, some ⟨o.dist_ap, o.dist_an⟩, true)
    else
      let o := env.localLossShared i
      (o.loss, none, some ⟨o.dist_ap, o.dist_an⟩, true)
  let idpart : ℚ × Bool :=
    if 0 < cfg.id_loss_weight then (env.idCriterion i, true) else (0, false)
  { g_loss := g.loss
    g_dist_ap := g.dist_ap
    g_dist_an := g.dist_an
    g_dist_mat := g.dist_mat
    l_loss := lpart.1
    l_dist_mat := lpart.2.1
    l_stats := lpart.2.2.1
    id_loss := idpart.1
    globalLossCalled := true
    localLossCalled := lpart.2.2.2
    idCriterionCalled := idpart.2 }

/-- Probability mutual loss of model `i` (train.py lines 300-306):
`pm_loss = 0`; when `cfg.num_models > 1 and cfg.pm_loss_weight > 0`,
accumulate `F.kl_div(log_probs, TVT(probs_list[j]).detach(), False)` over
`j != i` and divide by `(num_models - 1) * len(ims)`.  Device transfer and
`.detach()` leave the value unchanged. -/
def pmLoss {M N C : ℕ} (cfg : Cfg) (env : Env M N C) (i : Fin M) : ℚ :=
  if 1 < M ∧ 0 < cfg.pm_loss_weight then
    ((List.finRange M).foldl
        (fun acc j =>
          if j ≠ i then acc + env.klDiv (env.logProbs i) (env.probs j)
          else acc)
        0) /
      (((M : ℚ) - 1) * (N : ℚ))
  else 0

/-- Value of `torch.sum(torch.pow(A - B, 2))` for `N × N` tensors `A`, `B`. -/
def sumSqDiff {N : ℕ} (A B : Fin N → Fin N → ℚ) : ℚ :=
  ∑ p : Fin N, ∑ q : Fin N, (A p q - B p q) ^ 2

/-- Global-distance mutual loss of model `i` (train.py lines 308-315):
when `cfg.num_models > 1 and cfg.gdm_loss_weight > 0`, accumulate
`torch.sum(torch.pow(g_dist_mat - TVT(g_dist_mat_list[j]).detach(), 2))`
over `j != i` and divide by `(num_models - 1) * len(ims) * len(ims)`. -/
def gdmLoss {M N C : ℕ} (cfg : Cfg) (env : Env M N C) (i : Fin M) : ℚ :=
  if 1 < M ∧ 0 < cfg.gdm_loss_weight then
    ((List.finRange M).foldl
        (fun acc j =>
          if j ≠ i then
            acc + sumSqDiff (env.globalLoss i).dist_mat
                (env.globalLoss j).dist_mat
          else acc)
        0) /
      (((M : ℚ) - 1) * (N : ℚ) * (N : ℚ))
  else 0

/-- One summand of the local-distance mutual loss:
`torch.sum(torch.pow(l_dist_mat - TVT(l_dist_mat_list[j]).detach(), 2))`.
When the peer's `l_dist_mat_list[j]` is the Python int `0` (`none`),
`TVT(0)` raises (a plain int has no tensor transfer method), so the step
aborts.  When only the current model's `l_dist_mat` is the int `0` it
broadcasts against the peer tensor, i.e. acts as the zero matrix. -/
def ldmPair {N : ℕ} (own peer : Option (Fin N → Fin N → ℚ)) :
    Except String ℚ :=
  match peer with
  | none => .error "TVT applied to the python int 0"
  | some pj => .ok (sumSqDiff (own.getD (fun _ _ => 0)) pj)

/-- Guard of the local-distance mutual branch (train.py lines 319-321):
`cfg.num_models > 1 and cfg.local_dist_own_hard_sample and
cfg.ldm_loss_weight > 0`. -/
def ldmInvoked (M : ℕ) (cfg : Cfg) : Bool :=
  decide (1 < M) && cfg.local_dist_own_hard_sample &&
    decide (0 < cfg.ldm_loss_weight)

/-- Local-distance mutual loss of model `i` (train.py lines 317-326):
when the guard holds, accumulate `ldmPair` over `j != i` and divide by
`(num_models - 1) * len(ims) * len(ims)`; otherwise the initial scalar
`ldm_loss = 0` stands. -/
def ldmLoss {M N C : ℕ} (cfg : Cfg) (env : Env M N C) (i : Fin M) :
    Except String ℚ :=
  if 1 < M ∧ cfg.local_dist_own_hard_sample = true ∧
      0 < cfg.ldm_loss_weight then
    ((List.finRange M).foldl
        (fun (acc : Except String ℚ) j =>
          if j ≠ i then
            acc.bind fun a =>
              (ldmPair (modelPhase cfg env i).l_dist_mat
                  (modelPhase cfg env j).l_dist_mat).map
                fun t => a + t
          else acc)
        (Except.ok 0)).map
      fun s => s / (((M : ℚ) - 1) * (N : ℚ) * (N : ℚ))
  else .ok 0

/-- Total loss of model `i` (train.py lines 328-333):
`loss = g_loss * g_w + l_loss * l_w + id_loss * id_w + pm_loss * pm_w
+ gdm_loss * gdm_w + ldm_loss * ldm_w`; an exception raised while
computing `ldm_loss` aborts the step. -/
def totalLoss {M N C : ℕ} (cfg : Cfg) (env : Env M N C) (i : Fin M) :
    Except String ℚ :=
  (ldmLoss cfg env i).map fun ldm =>
    (modelPhase cfg env i).g_loss * cfg.g_loss_weight +
      (modelPhase cfg env i).l_loss * cfg.l_loss_weight +
      (modelPhase cfg env i).id_loss * cfg.id_loss_weight +
      pmLoss cfg env i * cfg.pm_loss_weight +
      gdmLoss cfg env i * cfg.gdm_loss_weight +
      ldm * cfg.ldm_loss_weight

/-- Leftover value of a Python loop variable after `for i in range(M): x = f(i)`:
each iteration overwrites it, `none` if the loop body never ran. -/
def lastLoopVar {M : ℕ} {β : Type} (f : Fin M → β) : Option β :=
  (List.finRange M).foldl (fun _ i => some (f i)) none

/-- Value of `v.data.mean()` for a length-`N` tensor. -/
def meanQ {N : ℕ} (v : Fin N → ℚ) : ℚ := (∑ k : Fin N, v k) / (N : ℚ)

/-- Value of `(dist_an > dist_ap).data.float().mean()`. -/
def precOf {N : ℕ} (ap an : Fin N → ℚ) : ℚ :=
  (∑ k : Fin N, if ap k < an k then (1 : ℚ) else 0) / (N : ℚ)

/-- Value of `(dist_an > dist_ap + margin).data.float().mean()`. -/
def marginPrecOf {N : ℕ} (ap an : Fin N → ℚ) (m : ℚ) : ℚ :=
  (∑ k : Fin N, if ap k + m < an k then (1 : ℚ) else 0) / (N : ℚ)

/-- Scalar values the step pushes into the running meters (train.py lines
341-386).  Conditionally updated meters are `Option` fields (`none` means
the corresponding `update` call is skipped). -/
structure StepLog (N : ℕ) where
  g_prec : ℚ
  g_m : ℚ
  g_d_ap : ℚ
  g_d_an : ℚ
  g_loss : ℚ
  l_upd : Option (ℚ × ℚ × ℚ × ℚ × ℚ)
  id_upd : Option ℚ
  pm_upd : Option ℚ
  gdm_upd : Option ℚ
  ldm_upd : Option (Except String ℚ)
  total : Except String ℚ

/-- Meter updates of train.py lines 341-386 assembled from one model's
first-loop values `p` and mutual-loop values `pm`, `gdm`, `ldm`, `tot`. -/
def stepLogOf {M N : ℕ} (cfg : Cfg) (p : PerModel N)
    (pm gdm : ℚ) (ldm tot : Except String ℚ) : StepLog N :=
  { g_prec := precOf p.g_dist_ap p.g_dist_an
    g_m := marginPrecOf p.g_dist_ap p.g_dist_an cfg.global_margin
    g_d_ap := meanQ p.g_dist_ap
    g_d_an := meanQ p.g_dist_an
    g_loss := p.g_loss
    l_upd :=
      if 0 < cfg.l_loss_weight then
        p.l_stats.map fun s =>
          (precOf s.dist_ap s.dist_an,
           marginPrecOf s.dist_ap s.dist_an cfg.local_margin,
           meanQ s.dist_ap, meanQ s.dist_an, p.l_loss)
      else none
    id_upd := if 0 < cfg.id_loss_weight then some p.id_loss else none
    pm_upd := if 1 < M ∧ 0 < cfg.pm_loss_weight then some pm else none
    gdm_upd := if 1 < M ∧ 0 < cfg.gdm_loss_weight then some gdm else none
    ldm_upd :=
      if 1 < M ∧ cfg.local_dist_own_hard_sample = true ∧
          0 < cfg.ldm_loss_weight then some ldm
      else none
    total := tot }

/-- Step log built from the values model `i` contributes. -/
def modelStepLog {M N C : ℕ} (cfg : Cfg) (env : Env M N C) (i : Fin M) :
    StepLog N :=
  stepLogOf (M := M) cfg (modelPhase cfg env i)
    (pmLoss cfg env i) (gdmLoss cfg env i) (ldmLoss cfg env i)
    (totalLoss cfg env i)

/-- Step log the script actually records: lines 346-386 read the loop
variables left over from the two per-model loops (`g_dist_ap`, `g_loss`,
`pm_loss`, `loss`, ...), i.e. the `lastLoopVar` of each loop; `none` when
there are no models at all. -/
def loggedStepLog {M N C : ℕ} (cfg : Cfg) (env : Env M N C) :
    Option (StepLog N) :=
  (lastLoopVar (modelPhase cfg env)).bind fun p =>
    (lastLoopVar (pmLoss cfg env)).bind fun pm =>
      (lastLoopVar (gdmLoss cfg env)).bind fun gdm =>
        (lastLoopVar (ldmLoss cfg env)).bind fun ldm =>
          (lastLoopVar (totalLoss cfg env)).map fun tot =>
            stepLogOf (M := M) cfg p pm gdm ldm tot

/-
Event trace of one training step (control flow of train.py lines 251-339):
the first loop runs every model's forward pass and per-model losses; the
second loop composes each model's total loss, zeroes its gradients and
runs its backward pass; the third loop steps every optimizer.
-/

/-- Observable events of one training step, per model. -/
inductive Ev (M : ℕ) where
  | forward (i : Fin M)
  | composeLoss (i : Fin M)
  | zeroGrad (i : Fin M)
  | backward (i : Fin M)
  | optStep (i : Fin M)
deriving DecidableEq

/-- Whether an event is an optimizer step. -/
def Ev.isOptStep {M : ℕ} : Ev M → Bool
  | .optStep _ => true
  | _ => false

/-- Event trace of one training step: train.py runs the per-model forward
loop (lines 251-284), then per model loss composition (line 328),
`optimizer.zero_grad()` (line 335) and `loss.backward()` (line 336), then
`optimizer.step()` for every optimizer (lines 338-339). -/
def stepTrace (M : ℕ) : List (Ev M) :=
  ((List.finRange M).map Ev.forward) ++
    (((List.finRange M).map fun i =>
        [Ev.composeLoss i, Ev.zeroGrad i, Ev.backward i]).flatten ++
      ((List.finRange M).map Ev.optStep))

/-
Gradient-flow embedding.  Modelled from the spec: torch autograd (external
to this file's source) records, for every tensor, the computation graph
linking it to model parameters; `backward` on a tensor accumulates
gradients only into parameters its graph reaches, and `.detach()` returns
the same value cut off from the graph ("stop-gradient", spec section 9).
A tensor is abstracted to the set of models whose parameters its graph
reaches.
-/

/-- Autograd abstraction of a tensor: the set of models whose parameters
its computation graph reaches. -/
structure DT (M : ℕ) where
  deps : Finset (Fin M)

/-- Value of `.detach()`: same value, severed from the graph. -/
def DT.detach {M : ℕ} (_t : DT M) : DT M := ⟨∅⟩

/-- Device transfer `TVT(...)`: keeps the autograd graph. -/
def DT.tvt {M : ℕ} (t : DT M) : DT M := t

/-- Differentiable binary op (add, sub, `F.kl_div`, ...): the result's
graph reaches whatever either operand reaches. -/
def DT.bin {M : ℕ} (a b : DT M) : DT M := ⟨a.deps ∪ b.deps⟩

/-- Differentiable unary op (scaling by a weight, `torch.sum`, division by
a python number, softmax, ...): same graph reach. -/
def DT.un {M : ℕ} (a : DT M) : DT M := a

/-- Python scalar literal (`0`): no graph. -/
def DT.lit {M : ℕ} : DT M := ⟨∅⟩

/-- Output tensor of model `i`'s forward pass: reaches model `i`'s
parameters. -/
def fwdOut {M : ℕ} (i : Fin M) : DT M := ⟨{i}⟩

/-- Graph reach of `g_loss` for model `i`: computed by `global_loss` from
`global_feat` (train.py lines 253-257). -/
def gLossD {M : ℕ} (i : Fin M) : DT M := (fwdOut i).un

/-- Graph reach of `g_dist_mat` for model `i`. -/
def gDistMatD {M : ℕ} (i : Fin M) : DT M := (fwdOut i).un

/-- Graph reach of `l_loss` for model `i` (train.py lines 259-270): the
python scalar `0` when the local weight is `0`, else a tensor computed
from `local_feat`. -/
def lLossD {M : ℕ} (cfg : Cfg) (i : Fin M) : DT M :=
  if cfg.l_loss_weight = 0 then DT.lit else (fwdOut i).un

/-- Graph reach of `l_dist_mat` for model `i` (train.py lines 259-270). -/
def lDistMatD {M : ℕ} (cfg : Cfg) (i : Fin M) : DT M :=
  if cfg.l_loss_weight = 0 then DT.lit
  else if cfg.local_dist_own_hard_sample then (fwdOut i).un
  else DT.lit

/-- Graph reach of `id_loss` for model `i` (train.py lines 272-274). -/
def idLossD {M : ℕ} (cfg : Cfg) (i : Fin M) : DT M :=
  if 0 < cfg.id_loss_weight then (fwdOut i).un else DT.lit

/-- Graph reach of `probs_list[i] = F.softmax(logits)` (train.py line 280). -/
def probsD {M : ℕ} (i : Fin M) : DT M := (fwdOut i).un

/-- Graph reach of `log_probs_list[i] = F.log_softmax(logits)` (line 281). -/
def logProbsD {M : ℕ} (i : Fin M) : DT M := (fwdOut i).un

/-- Graph reach of `pm_loss` for model `i` (train.py lines 300-306): each
summand is `F.kl_div(log_probs, TVT(probs_list[j]).detach(), False)`. -/
def pmLossD {M : ℕ} (cfg : Cfg) (i : Fin M) : DT M :=
  if 1 < M ∧ 0 < cfg.pm_loss_weight then
    ((List.finRange M).foldl
        (fun acc j =>
          if j ≠ i then
            acc.bin ((logProbsD i).bin ((probsD j).tvt.detach))
          else acc)
        DT.lit).un
  else DT.lit

/-- Graph reach of `gdm_loss` for model `i` (train.py lines 308-315): each
summand is `torch.sum(torch.pow(g_dist_mat - TVT(g_dist_mat_list[j]).detach(), 2))`. -/
def gdmLossD {M : ℕ} (cfg : Cfg) (i : Fin M) : DT M :=
  if 1 < M ∧ 0 < cfg.gdm_loss_weight then
    ((List.finRange M).foldl
        (fun acc j =>
          if j ≠ i then
            acc.bin ((gDistMatD i).bin ((gDistMatD j).tvt.detach))
          else acc)
        DT.lit).un
  else DT.lit

/-- Graph reach of `ldm_loss` for model `i` (train.py lines 317-326). -/
def ldmLossD {M : ℕ} (cfg : Cfg) (i : Fin M) : DT M :=
  if 1 < M ∧ cfg.local_dist_own_hard_sample = true ∧
      0 < cfg.ldm_loss_weight then
    ((List.finRange M).foldl
        (fun acc j =>
          if j ≠ i then
            acc.bin ((lDistMatD cfg i).bin ((lDistMatD cfg j).tvt.detach))
          else acc)
        DT.lit).un
  else DT.lit

/-- Graph reach of model `i`'s total loss (train.py lines 328-333): sum of
the six weighted terms. -/
def totalLossD {M : ℕ} (cfg : Cfg) (i : Fin M) : DT M :=
  (((((gLossD i).un.bin (lLossD cfg i).un).bin (idLossD cfg i).un).bin
        (pmLossD cfg i).un).bin
      (gdmLossD cfg i).un).bin
    (ldmLossD cfg i).un

/-- Effect of `loss.backward()` on per-model state (parameters or
accumulated gradients): `upd m` is applied exactly to the models whose
parameters the loss's graph reaches. -/
def DT.backward {M : ℕ} {α : Type} (t : DT M) (upd : Fin M → α → α)
    (P : Fin M → α) : Fin M → α :=
  fun m => if m ∈ t.deps then upd m (P m) else P m

/-
Configuration validation.  Modelled from the spec: `train_cfg.Config`
(imported by train.py line 14) is not part of this file's source; spec
section 7 requires a configuration error — a mutual-loss weight enabled
with only one model, or the local-distance mutual loss enabled without the
independent-hard-sample policy — to be rejected before training starts.
-/

/-- Modelled from the spec: whether the configuration is erroneous (spec
section 7): a mutual-loss weight enabled with only one model, or the
local-distance mutual loss enabled without the independent-hard-sample
policy. -/
def configError (M : ℕ) (cfg : Cfg) : Bool :=
  (decide (M ≤ 1) &&
      (decide (0 < cfg.pm_loss_weight) || decide (0 < cfg.gdm_loss_weight) ||
        decide (0 < cfg.ldm_loss_weight))) ||
    (!cfg.local_dist_own_hard_sample && decide (0 < cfg.ldm_loss_weight))

/-- Modelled from the spec: validation performed while the configuration
object is constructed, before any training step. -/
def validateConfig (M : ℕ) (cfg : Cfg) : Except String Unit :=
  if configError M cfg then .error "invalid configuration" else .ok ()

/-- Modelled from the spec: the training entry point validates the
configuration first and only then runs training steps (here: one step's
per-model total losses). -/
def runTraining (M N C : ℕ) (cfg : Cfg) (env : Env M N C) :
    Except String (List ℚ) :=
  (validateConfig M cfg).bind fun _ =>
    (List.finRange M).mapM (totalLoss cfg env)

/-
Helper lemmas.
-/

theorem foldl_if_ne_add {M : ℕ} (i : Fin M) (f : Fin M → ℚ) :
    ∀ (l : List (Fin M)) (init : ℚ),
      l.foldl (fun acc j => if j ≠ i then acc + f j else acc) init =
        init + (l.map fun j => if j ≠ i then f j else 0).sum := by
  intro l
  induction l with
  | nil => intro init; simp
  | cons a t ih =>
    intro init
    simp only [List.foldl_cons, List.map_cons, List.sum_cons]
    by_cases h : a ≠ i
    · rw [if_pos h, if_pos h, ih, add_assoc]
    · rw [if_neg h, if_neg h, ih, zero_add]

theorem foldl_if_ne_eq_sum_erase {M : ℕ} (i : Fin M) (f : Fin M → ℚ) :
    (List.finRange M).foldl
        (fun acc j => if j ≠ i then acc + f j else acc) 0 =
      ∑ j ∈ Finset.univ.erase i, f j := by
  rw [foldl_if_ne_add, zero_add, ← Finset.filter_ne' Finset.univ i,
    Finset.sum_filter, Fin.sum_univ_def]

theorem foldl_overwrite_last {α β : Type} (f : α → β) :
    ∀ (l : List α) (init : Option β) (h : l ≠ []),
      l.foldl (fun _ a => some (f a)) init = some (f (l.getLast h)) := by
  intro l
  induction l with
  | nil => intro init h; exact absurd rfl h
  | cons a t ih =>
    intro init h
    cases t with
    | nil => simp [List.getLast]
    | cons b t' =>
      rw [List.foldl_cons, ih (some (f a)) (by simp)]
      conv_rhs => rw [List.getLast_cons (by simp : b :: t' ≠ [])]

theorem lastLoopVar_eq {M : ℕ} {β : Type} (f : Fin M → β) (h : 0 < M) :
    lastLoopVar f = some (f ⟨M - 1, Nat.sub_lt h Nat.one_pos⟩) := by
  have hne : List.finRange M ≠ [] := by
    simp [List.finRange_eq_nil]
    omega
  unfold lastLoopVar
  rw [foldl_overwrite_last f _ none hne]
  congr 1
  rw [List.getLast_eq_getElem]
  simp [List.getElem_finRange, Fin.ext_iff]

theorem foldl_bin_deps_subset {M : ℕ} (i : Fin M) (s : Finset (Fin M))
    (g : Fin M → DT M) (hg : ∀ j, (g j).deps ⊆ s) :
    ∀ (l : List (Fin M)) (acc : DT M), acc.deps ⊆ s →
      (l.foldl (fun a j => if j ≠ i then a.bin (g j) else a) acc).deps ⊆ s := by
  intro l
  induction l with
  | nil => intro acc ha; simpa using ha
  | cons b t ih =>
    intro acc ha
    rw [List.foldl_cons]
    by_cases hb : b ≠ i
    · rw [if_pos hb]
      exact ih _ (by simpa [DT.bin] using Finset.union_subset ha (hg b))
    · rw [if_neg hb]
      exact ih _ ha

theorem foldl_except_error {M : ℕ} (i : Fin M)
    (g : Fin M → Except String ℚ) (msg : String) :
    ∀ l : List (Fin M),
      l.foldl
          (fun (acc : Except String ℚ) j =>
            if j ≠ i then acc.bind fun a => (g j).map fun t => a + t
            else acc)
          (Except.error msg) =
        Except.error msg := by
  intro l
  induction l with
  | nil => rfl
  | cons b t ih =>
    rw [List.foldl_cons]
    by_cases hb : b ≠ i
    · rw [if_pos hb]
      have : (Except.error msg : Except String ℚ).bind
          (fun a => (g b).map fun t => a + t) = Except.error msg := rfl
      rw [this, ih]
    · rw [if_neg hb, ih]

theorem foldl_except_hits_error {M : ℕ} (i : Fin M)
    (g : Fin M → Except String ℚ) (msg : String)
    (hg : ∀ j, j ≠ i → g j = Except.error msg) :
    ∀ (l : List (Fin M)) (a : ℚ), (∃ j ∈ l, j ≠ i) →
      l.foldl
          (fun (acc : Except String ℚ) j =>
            if j ≠ i then acc.bind fun a => (g j).map fun t => a + t
            else acc)
          (Except.ok a) =
        Except.error msg := by
  intro l
  induction l with
  | nil =>
    rintro a ⟨j, hj, _⟩
    exact absurd hj (List.not_mem_nil j)
  | cons b t ih =>
    rintro a ⟨j, hj, hji⟩
    rw [List.foldl_cons]
    by_cases hb : b ≠ i
    · rw [if_pos hb]
      have hstep : (Except.ok a : Except String ℚ).bind
          (fun x => (g b).map fun t => x + t) = Except.error msg := by
        simp [Except.bind, Except.map, hg b hb]
      rw [hstep, foldl_except_error]
    · rw [if_neg hb]
      push_neg at hb
      rcases List.mem_cons.mp hj with h | h
      · exact absurd (h.trans hb) hji
      · exact ih a ⟨j, h, hji⟩

theorem modelPhase_l_dist_mat_none {M N C : ℕ} (cfg : Cfg) (env : Env M N C)
    (k : Fin M) (hl : cfg.l_loss_weight = 0) :
    (modelPhase cfg env k).l_dist_mat = none := by
  simp [modelPhase, hl]

theorem modelPhase_l_loss_zero {M N C : ℕ} (cfg : Cfg) (env : Env M N C)
    (k : Fin M) (hl : cfg.l_loss_weight = 0) :
    (modelPhase cfg env k).l_loss = 0 := by
  simp [modelPhase, hl]

theorem ldmLoss_ok_zero {M N C : ℕ} (cfg : Cfg) (env : Env M N C) (i : Fin M)
    (h : ¬(1 < M ∧ cfg.local_dist_own_hard_sample = true ∧
      0 < cfg.ldm_loss_weight)) :
    ldmLoss cfg env i = Except.ok 0 := by
  unfold ldmLoss
  rw [if_neg h]

theorem ldmLoss_error_of_l_zero {M N C : ℕ} (cfg : Cfg) (env : Env M N C)
    (i : Fin M) (hM : 1 < M)
    (hown : cfg.local_dist_own_hard_sample = true)
    (hw : 0 < cfg.ldm_loss_weight) (hl : cfg.l_loss_weight = 0) :
    ldmLoss cfg env i = Except.error "TVT applied to the python int 0" := by
  unfold ldmLoss
  rw [if_pos ⟨hM, hown, hw⟩]
  obtain ⟨b, hb⟩ := Fintype.exists_ne_of_one_lt_card
    (by simpa [Fintype.card_fin] using hM) i
  rw [foldl_except_hits_error i
      (fun j => ldmPair (modelPhase cfg env i).l_dist_mat
        (modelPhase cfg env j).l_dist_mat)
      "TVT applied to the python int 0"
      (fun j _ => by
        show ldmPair (modelPhase cfg env i).l_dist_mat
            (modelPhase cfg env j).l_dist_mat =
          Except.error "TVT applied to the python int 0"
        rw [modelPhase_l_dist_mat_none cfg env j hl]
        rfl)
      (List.finRange M) 0 ⟨b, List.mem_finRange b, hb⟩]
  rfl

theorem lDistMatD_deps {M : ℕ} (cfg : Cfg) (k : Fin M) :
    (lDistMatD cfg k).deps ⊆ {k} := by
  unfold lDistMatD
  split
  · simp [DT.lit]
  · split
    · simp [fwdOut, DT.un]
    · simp [DT.lit]

theorem totalLossD_deps {M : ℕ} (cfg : Cfg) (i : Fin M) :
    (totalLossD cfg i).deps ⊆ {i} := by
  have hfold :
      ∀ (g : Fin M → DT M), (∀ j, (g j).deps ⊆ ({i} : Finset (Fin M))) →
        ((List.finRange M).foldl
            (fun a j => if j ≠ i then a.bin (g j) else a) DT.lit).deps ⊆
          ({i} : Finset (Fin M)) := fun g hg =>
    foldl_bin_deps_subset i {i} g hg (List.finRange M) DT.lit
      (by simp [DT.lit])
  have hg : (gLossD i).deps ⊆ ({i} : Finset (Fin M)) := by
    simp [gLossD, fwdOut, DT.un]
  have hl : (lLossD cfg i).deps ⊆ ({i} : Finset (Fin M)) := by
    unfold lLossD
    split
    · simp [DT.lit]
    · simp [fwdOut, DT.un]
  have hid : (idLossD cfg i).deps ⊆ ({i} : Finset (Fin M)) := by
    unfold idLossD
    split
    · simp [fwdOut, DT.un]
    · simp [DT.lit]
  have hpm : (pmLossD cfg i).deps ⊆ ({i} : Finset (Fin M)) := by
    unfold pmLossD
    split
    · exact hfold _ fun j => by
        simp [logProbsD, probsD, fwdOut, DT.bin, DT.tvt, DT.detach, DT.un]
    · simp [DT.lit]
  have hgdm : (gdmLossD cfg i).deps ⊆ ({i} : Finset (Fin M)) := by
    unfold gdmLossD
    split
    · exact hfold _ fun j => by
        simp [gDistMatD, fwdOut, DT.bin, DT.tvt, DT.detach, DT.un]
    · simp [DT.lit]
  have hldm : (ldmLossD cfg i).deps ⊆ ({i} : Finset (Fin M)) := by
    unfold ldmLossD
    split
    · exact hfold _ fun j => by
        have := lDistMatD_deps cfg i
        simp only [DT.bin, DT.tvt, DT.detach, DT.un]
        simpa using this
    · simp [DT.lit]
  unfold totalLossD
  simp only [DT.bin, DT.un]
  exact Finset.union_subset
    (Finset.union_subset
      (Finset.union_subset
        (Finset.union_subset (Finset.union_subset hg hl) hid) hpm)
      hgdm)
    hldm

/-- C1: for every ensemble configuration, each mutual-loss term of model
`i` reads every peer model's outputs (probabilities, global distance
matrix, local distance matrix) only through `.detach()`, so the
computation graph of model `i`'s total loss reaches no other model's
parameters: running `loss.backward()` for model `i` leaves every other
model `j`'s parameters and accumulated gradients unchanged — in
particular, in a 2-model ensemble with only the probability-mutual term
enabled, model B's state is unaffected by model A's backward pass. -/
theorem mutual_backward_isolation {M : ℕ} (cfg : Cfg) (i j : Fin M)
    (hij : j ≠ i) {α : Type} (upd : Fin M → α → α) (P : Fin M → α) :
    DT.backward (totalLossD cfg i) upd P j = P j := by
  have hdep : j ∉ (totalLossD cfg i).deps := fun hmem =>
    hij (Finset.mem_singleton.mp (totalLossD_deps cfg i hmem))
  simp [DT.backward, hdep]

/-- Configuration enabling only the probability-mutual term among the
mutual losses (and the always-on global term). -/
def cfgPmOnly : Cfg :=
  { g_loss_weight := 1, l_loss_weight := 0, id_loss_weight := 0,
    pm_loss_weight := 1, gdm_loss_weight := 0, ldm_loss_weight := 0,
    local_dist_own_hard_sample := false, global_margin := 0,
    local_margin := 0 }

/-- Witness for C1: 2-model ensemble, probability-mutual term only; model
B's (index 1) state survives model A's (index 0) backward pass. -/
theorem mutual_backward_isolation_witness :
    (1 : Fin 2) ≠ 0 ∧
      DT.backward (totalLossD (M := 2) cfgPmOnly 0) (fun _ x => x + 1)
          (fun _ => (0 : ℚ)) 1 =
        0 :=
  ⟨by decide,
    mutual_backward_isolation cfgPmOnly 0 1 (by decide) (fun _ x => x + 1)
      (fun _ => (0 : ℚ))⟩

/-- C2: in every training step's event trace, each model's loss
composition, gradient zeroing and backward pass occur in the trace, every
optimizer step occurs exactly once per model, and every non-optimizer-step
event (all forward passes, loss compositions, gradient zeroings and
backward passes) precedes every optimizer step. -/
theorem optimizer_step_ordering (M : ℕ) :
    (∀ i : Fin M,
        Ev.composeLoss i ∈ stepTrace M ∧ Ev.zeroGrad i ∈ stepTrace M ∧
          Ev.backward i ∈ stepTrace M) ∧
      (∀ i : Fin M, (stepTrace M).count (Ev.optStep i) = 1) ∧
      (∀ (p q : ℕ) (e : Ev M) (k : Fin M),
        (stepTrace M)[p]? = some e → e.isOptStep = false →
          (stepTrace M)[q]? = some (Ev.optStep k) → p < q) := by
  set F : List (Ev M) := (List.finRange M).map Ev.forward with hF
  set J : List (Ev M) :=
    ((List.finRange M).map fun i =>
      [Ev.composeLoss i, Ev.zeroGrad i, Ev.backward i]).flatten with hJ
  set B : List (Ev M) := (List.finRange M).map Ev.optStep with hB
  have htrace : stepTrace M = (F ++ J) ++ B := by
    simp [stepTrace, hF, hJ, hB, List.append_assoc]
  have hmemJ : ∀ i : Fin M,
      Ev.composeLoss i ∈ J ∧ Ev.zeroGrad i ∈ J ∧ Ev.backward i ∈ J := by
    intro i
    refine ⟨?_, ?_, ?_⟩ <;>
      exact List.mem_flatten.mpr
        ⟨[Ev.composeLoss i, Ev.zeroGrad i, Ev.backward i],
          List.mem_map.mpr ⟨i, List.mem_finRange i, rfl⟩, by simp⟩
  have hnotA : ∀ k : Fin M, Ev.optStep k ∉ F ++ J := by
    intro k hk
    rcases List.mem_append.mp hk with h | h
    · rcases List.mem_map.mp h with ⟨x, _, hx⟩
      exact Ev.noConfusion hx
    · rcases List.mem_flatten.mp h with ⟨l, hl, hel⟩
      rcases List.mem_map.mp hl with ⟨x, _, hx⟩
      subst hx
      simp at hel
  have honlyB : ∀ e ∈ B, e.isOptStep = true := by
    intro e he
    rcases List.mem_map.mp he with ⟨x, _, hx⟩
    subst hx
    rfl
  refine ⟨?_, ?_, ?_⟩
  · intro i
    rw [htrace]
    exact ⟨List.mem_append_left _ (List.mem_append_right _ (hmemJ i).1),
      List.mem_append_left _ (List.mem_append_right _ (hmemJ i).2.1),
      List.mem_append_left _ (List.mem_append_right _ (hmemJ i).2.2)⟩
  · intro i
    rw [htrace, List.count_append]
    have h0 : (F ++ J).count (Ev.optStep i) = 0 :=
      List.count_eq_zero.mpr (hnotA i)
    have h1 : B.count (Ev.optStep i) = 1 :=
      List.count_eq_one_of_mem
        ((List.nodup_finRange M).map fun a b hab => by
          cases hab
          rfl)
        (List.mem_map.mpr ⟨i, List.mem_finRange i, rfl⟩)
    rw [h0, h1]
  · intro p q e k hp hne hq
    rw [htrace] at hp hq
    have hplt : p < (F ++ J).length := by
      by_contra hge
      push_neg at hge
      rw [List.getElem?_append_right hge] at hp
      have : e ∈ B := by
        rcases List.getElem?_eq_some.mp hp with ⟨hlt, hel⟩
        exact hel ▸ List.getElem_mem hlt
      rw [honlyB e this] at hne
      exact Bool.noConfusion hne
    have hqge : (F ++ J).length ≤ q := by
      by_contra hlt
      push_neg at hlt
      rw [List.getElem?_append_left hlt] at hq
      have : Ev.optStep k ∈ F ++ J := by
        rcases List.getElem?_eq_some.mp hq with ⟨hlt2, hel⟩
        exact hel ▸ List.getElem_mem hlt2
      exact hnotA k this
    exact lt_of_lt_of_le hplt hqge

/-- Degenerate 1-model, batch-1, 1-class collaborator outputs for
evaluating the step at concrete inputs. -/
def env1 : Env 1 1 1 :=
  { globalLoss := fun _ =>
      { loss := 2, p_inds := id, n_inds := id, dist_ap := fun _ => 1,
        dist_an := fun _ => 3, dist_mat := fun _ _ => 5 }
    localLossOwn := fun _ =>
      { loss := 7, dist_ap := fun _ => 1, dist_an := fun _ => 2,
        dist_mat := fun _ _ => 4 }
    localLossShared := fun _ =>
      { loss := 6, dist_ap := fun _ => 1, dist_an := fun _ => 2 }
    idCriterion := fun _ => 9
    probs := fun _ _ _ => 1
    logProbs := fun _ _ _ => 0
    klDiv := fun _ _ => 0 }

/-- 2-model, batch-1, 1-class collaborator outputs with model-dependent
values, for evaluating the step at concrete inputs. -/
def env2 : Env 2 1 1 :=
  { globalLoss := fun i =>
      { loss := if i = 0 then 2 else 3, p_inds := id, n_inds := id,
        dist_ap := fun _ => 1, dist_an := fun _ => 3,
        dist_mat := fun _ _ => if i = 0 then 5 else 6 }
    localLossOwn := fun i =>
      { loss := 7, dist_ap := fun _ => 1, dist_an := fun _ => 2,
        dist_mat := fun _ _ => if i = 0 then 4 else 8 }
    localLossShared := fun _ =>
      { loss := 6, dist_ap := fun _ => 1, dist_an := fun _ => 2 }
    idCriterion := fun i => if i = 0 then 9 else 10
    probs := fun i _ _ => if i = 0 then 1 else 2
    logProbs := fun i _ _ => if i = 0 then 0 else 1
    klDiv := fun lp q => lp 0 0 + q 0 0 }

/-- Configuration with every weight 0 (in particular the global-triplet
weight). -/
def cfgZero : Cfg :=
  { g_loss_weight := 0, l_loss_weight := 0, id_loss_weight := 0,
    pm_loss_weight := 0, gdm_loss_weight := 0, ldm_loss_weight := 0,
    local_dist_own_hard_sample := false, global_margin := 0,
    local_margin := 0 }

/-- Counterexample to C3 as stated: with the global-triplet weight
configured as 0, the step still computes the global triplet term
(`global_loss` is called unconditionally at train.py line 255). -/
theorem global_loss_computed_at_zero_weight :
    cfgZero.g_loss_weight = 0 ∧
      (modelPhase cfgZero env1 0).globalLossCalled = true :=
  ⟨rfl, rfl⟩

/-- C3 (amended): every loss term except the global triplet term is
skipped — not merely weighted by 0 — when its weight is 0 or its enabling
condition is false: the local term when its weight is 0, the
classification term when its weight is not positive, and each mutual term
when its guard fails; the global triplet term, however, is computed
unconditionally, its weight only scaling its contribution. -/
theorem disabled_term_skip_amended {M N C : ℕ} (cfg : Cfg) (env : Env M N C)
    (i : Fin M) :
    (cfg.l_loss_weight = 0 → (modelPhase cfg env i).localLossCalled = false) ∧
      (cfg.id_loss_weight = 0 →
        (modelPhase cfg env i).idCriterionCalled = false) ∧
      (¬(1 < M ∧ 0 < cfg.pm_loss_weight) → pmLoss cfg env i = 0) ∧
      (¬(1 < M ∧ 0 < cfg.gdm_loss_weight) → gdmLoss cfg env i = 0) ∧
      (¬(1 < M ∧ cfg.local_dist_own_hard_sample = true ∧
          0 < cfg.ldm_loss_weight) →
        ldmLoss cfg env i = Except.ok 0) ∧
      (modelPhase cfg env i).globalLossCalled = true := by
  refine ⟨?_, ?_, ?_, ?_, ?_, rfl⟩
  · intro hl
    simp [modelPhase, hl]
  · intro hid
    have : ¬0 < cfg.id_loss_weight := by rw [hid]; exact lt_irrefl 0
    simp [modelPhase, this]
  · intro h
    unfold pmLoss
    rw [if_neg h]
  · intro h
    unfold gdmLoss
    rw [if_neg h]
  · exact ldmLoss_ok_zero cfg env i

/-- Witness for C3 (amended): one model, all weights 0 — every optional
term is skipped while the global term is still computed. -/
theorem disabled_term_skip_amended_witness :
    (modelPhase cfgZero env1 0).localLossCalled = false ∧
      (modelPhase cfgZero env1 0).idCriterionCalled = false ∧
      pmLoss cfgZero env1 0 = 0 ∧
      gdmLoss cfgZero env1 0 = 0 ∧
      ldmLoss cfgZero env1 0 = Except.ok 0 ∧
      (modelPhase cfgZero env1 0).globalLossCalled = true := by
  obtain ⟨h1, h2, h3, h4, h5, h6⟩ := disabled_term_skip_amended cfgZero env1 0
  exact ⟨h1 rfl, h2 rfl, h3 (by decide), h4 (by decide), h5 (by decide), h6⟩

/-- C4: a configuration that enables a mutual-loss weight with only one
model, or the local-distance mutual loss without the independent
hard-sample policy, is rejected before any training step runs. -/
theorem config_rejected_before_training {M N C : ℕ} (cfg : Cfg)
    (env : Env M N C)
    (h : (M ≤ 1 ∧ (0 < cfg.pm_loss_weight ∨ 0 < cfg.gdm_loss_weight ∨
          0 < cfg.ldm_loss_weight)) ∨
        (cfg.local_dist_own_hard_sample = false ∧
          0 < cfg.ldm_loss_weight)) :
    validateConfig M cfg = Except.error "invalid configuration" ∧
      runTraining M N C cfg env = Except.error "invalid configuration" := by
  have hc : configError M cfg = true := by
    rcases h with ⟨h1, h2 | h2 | h2⟩ | ⟨h1, h2⟩ <;>
      simp [configError, h1, h2]
  have hv : validateConfig M cfg = Except.error "invalid configuration" := by
    unfold validateConfig
    rw [hc]
    rfl
  exact ⟨hv, by unfold runTraining; rw [hv]; rfl⟩

/-- Configuration with a positive probability-mutual weight only. -/
def cfgBadSingle : Cfg :=
  { g_loss_weight := 1, l_loss_weight := 0, id_loss_weight := 0,
    pm_loss_weight := 1, gdm_loss_weight := 0, ldm_loss_weight := 0,
    local_dist_own_hard_sample := false, global_margin := 0,
    local_margin := 0 }

/-- Witness for C4: probability-mutual weight enabled with a single
model. -/
theorem config_rejected_before_training_witness :
    ((1 ≤ 1 ∧ ((0 : ℚ) < 1 ∨ (0 : ℚ) < 0 ∨ (0 : ℚ) < 0)) ∨
        (cfgBadSingle.local_dist_own_hard_sample = false ∧
          (0 : ℚ) < 0)) ∧
      validateConfig 1 cfgBadSingle = Except.error "invalid configuration" ∧
      runTraining 1 1 1 cfgBadSingle env1 =
        Except.error "invalid configuration" :=
  ⟨Or.inl ⟨le_refl 1, Or.inl (by norm_num)⟩,
    config_rejected_before_training cfgBadSingle env1
      (Or.inl ⟨le_refl 1, Or.inl (by norm_num [cfgBadSingle])⟩)⟩

/-- C5: with at least two models and a positive probability-mutual
weight, model `i`'s probability mutual loss is the sum over peers
`j ≠ i` of the KL divergence of model `i`'s log-probabilities against
model `j`'s (detached) probabilities, divided by `(M - 1) * N`; the
self-comparison `j = i` is excluded. -/
theorem pm_loss_formula {M N C : ℕ} (cfg : Cfg) (env : Env M N C)
    (i : Fin M) (hM : 1 < M) (hw : 0 < cfg.pm_loss_weight) :
    pmLoss cfg env i =
      (∑ j ∈ Finset.univ.erase i,
          env.klDiv (env.logProbs i) (env.probs j)) /
        (((M : ℚ) - 1) * (N : ℚ)) := by
  unfold pmLoss
  rw [if_pos ⟨hM, hw⟩, foldl_if_ne_eq_sum_erase]

/-- Configuration with all six weights 1 and the independent-hard-sample
local policy. -/
def cfgAll : Cfg :=
  { g_loss_weight := 1, l_loss_weight := 1, id_loss_weight := 1,
    pm_loss_weight := 1, gdm_loss_weight := 1, ldm_loss_weight := 1,
    local_dist_own_hard_sample := true, global_margin := 0,
    local_margin := 0 }

/-- Witness for C5 at a concrete 2-model input. -/
theorem pm_loss_formula_witness :
    (1 < 2 ∧ (0 : ℚ) < 1) ∧
      pmLoss cfgAll env2 0 =
        (∑ j ∈ Finset.univ.erase 0,
            env2.klDiv (env2.logProbs 0) (env2.probs j)) /
          (((2 : ℚ) - 1) * (1 : ℚ)) :=
  ⟨⟨one_lt_two, by norm_num⟩,
    pm_loss_formula cfgAll env2 0 one_lt_two (by norm_num [cfgAll])⟩

/-- C6: with at least two models and a positive global-distance-mutual
weight, model `i`'s global-distance mutual loss is the sum over peers
`j ≠ i` of the summed squared elementwise differences of the two `N × N`
global distance matrices, divided by `(M - 1) * N * N`. -/
theorem gdm_loss_formula {M N C : ℕ} (cfg : Cfg) (env : Env M N C)
    (i : Fin M) (hM : 1 < M) (hw : 0 < cfg.gdm_loss_weight) :
    gdmLoss cfg env i =
      (∑ j ∈ Finset.univ.erase i,
          sumSqDiff (env.globalLoss i).dist_mat
            (env.globalLoss j).dist_mat) /
        (((M : ℚ) - 1) * (N : ℚ) * (N : ℚ)) := by
  unfold gdmLoss
  rw [if_pos ⟨hM, hw⟩, foldl_if_ne_eq_sum_erase]

/-- Witness for C6 at a concrete 2-model input. -/
theorem gdm_loss_formula_witness :
    (1 < 2 ∧ (0 : ℚ) < 1) ∧
      gdmLoss cfgAll env2 0 =
        (∑ j ∈ Finset.univ.erase 0,
            sumSqDiff (env2.globalLoss 0).dist_mat
              (env2.globalLoss j).dist_mat) /
          (((2 : ℚ) - 1) * (1 : ℚ) * (1 : ℚ)) :=
  ⟨⟨one_lt_two, by norm_num⟩,
    gdm_loss_formula cfgAll env2 0 one_lt_two (by norm_num [cfgAll])⟩

/-- C7: the local-distance mutual loss is computed exactly when the
ensemble has at least two models, its weight is positive, and the local
loss uses the independent-hard-sample policy; under any other
configuration the branch is skipped and the term stays `0`. -/
theorem ldm_guard_characterization {M N C : ℕ} (cfg : Cfg) (env : Env M N C)
    (i : Fin M) :
    (ldmInvoked M cfg = true ↔
        (1 < M ∧ cfg.local_dist_own_hard_sample = true ∧
          0 < cfg.ldm_loss_weight)) ∧
      (ldmInvoked M cfg = false → ldmLoss cfg env i = Except.ok 0) := by
  have hiff : ldmInvoked M cfg = true ↔
      (1 < M ∧ cfg.local_dist_own_hard_sample = true ∧
        0 < cfg.ldm_loss_weight) := by
    unfold ldmInvoked
    rw [Bool.and_eq_true, Bool.and_eq_true]
    rw [decide_eq_true_iff, decide_eq_true_iff]
    tauto
  refine ⟨hiff, fun h => ldmLoss_ok_zero cfg env i fun hc => ?_⟩
  rw [hiff.mpr hc] at h
  exact Bool.noConfusion h

/-- Configuration with the local-distance-mutual weight positive but the
shared-hard-samples local policy. -/
def cfgNoOwn : Cfg :=
  { g_loss_weight := 1, l_loss_weight := 1, id_loss_weight := 0,
    pm_loss_weight := 0, gdm_loss_weight := 0, ldm_loss_weight := 0,
    local_dist_own_hard_sample := false, global_margin := 0,
    local_margin := 0 }

/-- Witness for C7: guard false at a concrete input, term stays `ok 0`. -/
theorem ldm_guard_characterization_witness :
    ldmInvoked 2 cfgNoOwn = false ∧
      ldmLoss cfgNoOwn env2 0 = Except.ok 0 :=
  ⟨by decide,
    (ldm_guard_characterization cfgNoOwn env2 0).2 (by decide)⟩

/-- Weighted sum of only the enabled terms, written following the spec's
words: each term appears exactly when its enabling condition holds (the
global term when its weight is non-zero, the classification term when its
weight is positive, each mutual term when its guard holds); with the local
weight 0 the local and local-distance-mutual terms are absent. -/
def specEnabledTotal {M N C : ℕ} (cfg : Cfg) (env : Env M N C)
    (i : Fin M) : ℚ :=
  (if cfg.g_loss_weight ≠ 0 then
      (env.globalLoss i).loss * cfg.g_loss_weight
    else 0) +
    (if 0 < cfg.id_loss_weight then
        env.idCriterion i * cfg.id_loss_weight
      else 0) +
    (if 1 < M ∧ 0 < cfg.pm_loss_weight then
        pmLoss cfg env i * cfg.pm_loss_weight
      else 0) +
    (if 1 < M ∧ 0 < cfg.gdm_loss_weight then
        gdmLoss cfg env i * cfg.gdm_loss_weight
      else 0)

/-- C8: with the local-loss weight configured as 0, `local_loss` is never
invoked, and whenever the step completes, the total loss is the weighted
sum of only the enabled terms. -/
theorem local_skip_total_loss {M N C : ℕ} (cfg : Cfg) (env : Env M N C)
    (i : Fin M) (hl : cfg.l_loss_weight = 0) :
    (modelPhase cfg env i).localLossCalled = false ∧
      ∀ t, totalLoss cfg env i = Except.ok t →
        t = specEnabledTotal cfg env i := by
  refine ⟨by simp [modelPhase, hl], fun t ht => ?_⟩
  by_cases hguard : 1 < M ∧ cfg.local_dist_own_hard_sample = true ∧
      0 < cfg.ldm_loss_weight
  · exfalso
    unfold totalLoss at ht
    rw [ldmLoss_error_of_l_zero cfg env i hguard.1 hguard.2.1 hguard.2.2
      hl] at ht
    exact Except.noConfusion ht
  · unfold totalLoss at ht
    rw [ldmLoss_ok_zero cfg env i hguard] at ht
    simp only [Except.map, Except.ok.injEq] at ht
    subst ht
    have hgl : (modelPhase cfg env i).g_loss = (env.globalLoss i).loss := by
      simp [modelPhase]
    have hll : (modelPhase cfg env i).l_loss = 0 :=
      modelPhase_l_loss_zero cfg env i hl
    have hid : (modelPhase cfg env i).id_loss * cfg.id_loss_weight =
        if 0 < cfg.id_loss_weight then
          env.idCriterion i * cfg.id_loss_weight
        else 0 := by
      by_cases h : 0 < cfg.id_loss_weight
      · simp [modelPhase, h]
      · simp [modelPhase, h]
    have hpm : pmLoss cfg env i * cfg.pm_loss_weight =
        if 1 < M ∧ 0 < cfg.pm_loss_weight then
          pmLoss cfg env i * cfg.pm_loss_weight
        else 0 := by
      by_cases h : 1 < M ∧ 0 < cfg.pm_loss_weight
      · rw [if_pos h]
      · rw [if_neg h]
        unfold pmLoss
        rw [if_neg h, zero_mul]
    have hgdm : gdmLoss cfg env i * cfg.gdm_loss_weight =
        if 1 < M ∧ 0 < cfg.gdm_loss_weight then
          gdmLoss cfg env i * cfg.gdm_loss_weight
        else 0 := by
      by_cases h : 1 < M ∧ 0 < cfg.gdm_loss_weight
      · rw [if_pos h]
      · rw [if_neg h]
        unfold gdmLoss
        rw [if_neg h, zero_mul]
    have hg : (env.globalLoss i).loss * cfg.g_loss_weight =
        if cfg.g_loss_weight ≠ 0 then
          (env.globalLoss i).loss * cfg.g_loss_weight
        else 0 := by
      by_cases h : cfg.g_loss_weight ≠ 0
      · rw [if_pos h]
      · push_neg at h
        rw [if_neg (by simpa using h), h, mul_zero]
    unfold specEnabledTotal
    rw [← hg, ← hid, ← hpm, ← hgdm, hgl, hll]
    ring

/-- Configuration with local weight 0 and the local-distance-mutual term
disabled (shared-hard-samples policy). -/
def cfgLZero : Cfg :=
  { g_loss_weight := 1, l_loss_weight := 0, id_loss_weight := 1,
    pm_loss_weight := 1, gdm_loss_weight := 1, ldm_loss_weight := 0,
    local_dist_own_hard_sample := false, global_margin := 0,
    local_margin := 0 }

/-- Witness for C8 at a concrete 2-model input. -/
theorem local_skip_total_loss_witness :
    cfgLZero.l_loss_weight = 0 ∧
      ((modelPhase cfgLZero env2 0).localLossCalled = false ∧
        ∀ t, totalLoss cfgLZero env2 0 = Except.ok t →
          t = specEnabledTotal cfgLZero env2 0) :=
  ⟨rfl, local_skip_total_loss cfgLZero env2 0 rfl⟩

/-- C9: the step's logged statistics and meter updates (triplet
precision, satisfied-margin fraction, mean anchor-positive /
anchor-negative distances, per-term losses, total loss) are built from
the leftover loop variables of the two per-model loops, i.e. entirely
from the last model's values. -/
theorem step_log_last_model {M N C : ℕ} (cfg : Cfg) (env : Env M N C)
    (h : 0 < M) :
    loggedStepLog cfg env =
      some (modelStepLog cfg env ⟨M - 1, Nat.sub_lt h Nat.one_pos⟩) := by
  unfold loggedStepLog modelStepLog
  rw [lastLoopVar_eq (modelPhase cfg env) h,
    lastLoopVar_eq (pmLoss cfg env) h, lastLoopVar_eq (gdmLoss cfg env) h,
    lastLoopVar_eq (ldmLoss cfg env) h,
    lastLoopVar_eq (totalLoss cfg env) h]
  rfl

/-- Witness for C9: with 2 models the logged statistics are those of
model index 1. -/
theorem step_log_last_model_witness :
    0 < 2 ∧
      loggedStepLog cfgAll env2 =
        some (modelStepLog cfgAll env2 ⟨1, one_lt_two⟩) :=
  ⟨by norm_num, step_log_last_model cfgAll env2 (by norm_num)⟩

/-- Configuration triggering the local-distance-mutual crash: local
weight 0 together with the independent-hard-sample policy and a positive
local-distance-mutual weight. -/
def cfgCrash : Cfg :=
  { g_loss_weight := 1, l_loss_weight := 0, id_loss_weight := 0,
    pm_loss_weight := 0, gdm_loss_weight := 0, ldm_loss_weight := 1,
    local_dist_own_hard_sample := true, global_margin := 0,
    local_margin := 0 }

/-- C10: with local-loss weight 0, the independent-hard-sample policy, 2
models and a positive local-distance-mutual weight, the mutual branch
still runs, every model's `l_dist_mat` is the python scalar `0` rather
than an `N × N` matrix, and the step aborts instead of completing
normally. -/
theorem ldm_scalar_crash :
    cfgCrash.l_loss_weight = 0 ∧ ldmInvoked 2 cfgCrash = true ∧
      (∀ k : Fin 2, (modelPhase cfgCrash env2 k).l_dist_mat = none) ∧
      totalLoss cfgCrash env2 0 =
        Except.error "TVT applied to the python int 0" := by
  refine ⟨rfl, by decide, fun k => modelPhase_l_dist_mat_none _ _ k rfl, ?_⟩
  unfold totalLoss
  rw [ldmLoss_error_of_l_zero cfgCrash env2 0 one_lt_two rfl
    (by norm_num [cfgCrash]) rfl]
  rfl

end AlignedReid
